import Mathlib

/-!
Verification development for the typed-blocks core of `ocaml-blockly`:
a shallow embedding of the binder/reference life cycle
(`core/bound_variable_value.js`, class `Blockly.BoundVariableValue`),
of the connection-driven type-unification engine, of the binding
directory, and of the scope resolver, together with theorems settling
the specification's claims about them.

References are identified by numeric ids (the source compares reference
objects by identity inside `referenceList_`; ids generated by
`Blockly.utils.genUid` are unique, so id equality models object
identity).
-/

namespace OcamlBlockly

/-! ## Binder state: `Blockly.BoundVariableValue`

A binder (`BoundVariableValue`) holds, per the constructor
(bound_variable_value.js, lines 22-89):
`variableName_`, `referenceList_` (ids of the references that refer to
this value), the `deleteLater_` flag, and the resources released on
destruction: its registration in the `Blockly.BoundVariables`
directory (`addValue`/`removeValue`), its `workspace_` field, the
`sourceBlock_.typedValue[fieldName]` slot, the `sourceBlock_` field
itself, and its `typeExpr`. Each resource is modelled by a Boolean
that is `true` while the resource is held. -/

structure BoundVariableValue where
  variableName : String
  referenceList : List Nat
  deleteLater : Bool
  /-- registered in the `Blockly.BoundVariables` directory of its workspace -/
  inDirectory : Bool
  /-- `workspace_` is non-null -/
  hasWorkspace : Bool
  /-- `sourceBlock_.typedValue[fieldName]` still holds this value -/
  inTypedValueSlot : Bool
  /-- `sourceBlock_` is non-null -/
  hasSourceBlock : Bool
  /-- `typeExpr` is non-null -/
  hasTypeExpr : Bool
  deriving DecidableEq, Repr

namespace BoundVariableValue

/-- A freshly constructed value (constructor, lines 22-89): empty
reference list, not scheduled for deletion, holding all resources. -/
def mk0 (name : String) : BoundVariableValue :=
  { variableName := name
    referenceList := []
    deleteLater := false
    inDirectory := true
    hasWorkspace := true
    inTypedValueSlot := true
    hasSourceBlock := true
    hasTypeExpr := true }

/-- A live value: all resources held (the state every value is in from
construction until destruction). -/
def live (s : BoundVariableValue) : Prop :=
  s.inDirectory = true ∧ s.hasWorkspace = true ∧ s.inTypedValueSlot = true ∧
    s.hasSourceBlock = true ∧ s.hasTypeExpr = true

instance (s : BoundVariableValue) : Decidable s.live := by
  unfold live; infer_instance

/-- A destroyed value: unregistered from the directory, workspace and
source-block fields nulled, typed-value slot cleared, type released --
exactly the effect of the first branch of `dispose` (lines 141-146). -/
def destroyed (s : BoundVariableValue) : Prop :=
  s.inDirectory = false ∧ s.hasWorkspace = false ∧ s.inTypedValueSlot = false ∧
    s.hasSourceBlock = false ∧ s.hasTypeExpr = false

instance (s : BoundVariableValue) : Decidable s.destroyed := by
  unfold destroyed; infer_instance

/-- `Blockly.BoundVariableValue.prototype.dispose` (lines 140-152):
with no references, unregister from the directory and release
workspace, typed-value slot, source block and type expression;
otherwise only set `deleteLater_`. -/
def dispose (s : BoundVariableValue) : BoundVariableValue :=
  if s.referenceList.length = 0 then
    { s with inDirectory := false
             hasWorkspace := false
             inTypedValueSlot := false
             hasSourceBlock := false
             hasTypeExpr := false }
  else
    { s with deleteLater := true }

/-- Errors raised by the reference-list API (`storeReference` /
`removeReference`); the source raises plain strings. -/
inductive DirectoryError where
  | DuplicateReference
  | BinderDeleting
  | ReferenceNotFound
  deriving DecidableEq, Repr

/-- `Blockly.BoundVariableValue.prototype.storeReference`
(lines 159-167): duplicate check first, then the deleting check, then
append. -/
def storeReference (s : BoundVariableValue) (r : Nat) :
    Except DirectoryError BoundVariableValue :=
  if s.referenceList.contains r then
    .error .DuplicateReference
  else if s.deleteLater then
    .error .BinderDeleting
  else
    .ok { s with referenceList := s.referenceList ++ [r] }

/-- `Blockly.BoundVariableValue.prototype.removeReference`
(lines 174-185): splice out the first occurrence (`indexOf`), then
dispose when scheduled for deletion and the list became empty. -/
def removeReference (s : BoundVariableValue) (r : Nat) :
    Except DirectoryError BoundVariableValue :=
  if s.referenceList.contains r then
    if s.deleteLater ∧ (s.referenceList.erase r).length = 0 then
      .ok (BoundVariableValue.dispose
        { s with referenceList := s.referenceList.erase r })
    else
      .ok { s with referenceList := s.referenceList.erase r }
  else
    .error .ReferenceNotFound

/-- `Blockly.BoundVariableValue.prototype.setVariableName`
(lines 119-128) together with the per-reference name store: when the
name changes, update `variableName_`, call `setVariableName` on every
reference in `referenceList_` (modelled as a pointwise update of the
name store), and call `updateText` on the field (the returned Boolean
records whether that refresh was signalled). -/
def setVariableName (s : BoundVariableValue) (names : Nat → String)
    (newName : String) : BoundVariableValue × (Nat → String) × Bool :=
  if s.variableName ≠ newName then
    ({ s with variableName := newName },
     fun r => if s.referenceList.contains r then newName else names r,
     true)
  else
    (s, names, false)

end BoundVariableValue

/-! ### Concrete binder states used by the witnesses -/

/-- A live binder holding two references, ids 5 and 7. -/
def c1ex : BoundVariableValue :=
  { BoundVariableValue.mk0 "x" with referenceList := [5, 7] }

/-- `c1ex` after `dispose`, then after removing reference 5. -/
def c1mid : BoundVariableValue :=
  { BoundVariableValue.mk0 "x" with referenceList := [7], deleteLater := true }

/-- A live binder holding only reference 7. -/
def c1pre : BoundVariableValue :=
  { BoundVariableValue.mk0 "x" with referenceList := [7] }

/-- `c1mid` after removing reference 7: destroyed. -/
def c1fin : BoundVariableValue :=
  { BoundVariableValue.mk0 "x" with
      referenceList := [], deleteLater := true,
      inDirectory := false, hasWorkspace := false, inTypedValueSlot := false,
      hasSourceBlock := false, hasTypeExpr := false }

/-- A live binder holding reference 3. -/
def c2ex : BoundVariableValue :=
  { BoundVariableValue.mk0 "y" with referenceList := [3] }

/-- A binder holding reference 3, scheduled for deletion. -/
def c2exDel : BoundVariableValue :=
  { BoundVariableValue.mk0 "y" with referenceList := [3], deleteLater := true }

/-- A reference-name store assigning the name `y` everywhere. -/
def c4names : Nat → String := fun _ => "y"

/-- A live binder named `y` holding references 5 and 7. -/
def c4ex : BoundVariableValue :=
  { BoundVariableValue.mk0 "y" with referenceList := [5, 7] }

/-! ## Association lists

Key-value stores backing the binding directory (per-workspace maps
from ids to binder and reference records). -/

/-- First value stored under key `k`, or `none`. -/
def assocFind {α : Type} (k : Nat) : List (Nat × α) → Option α
  | [] => none
  | (k', v) :: t => if k' = k then some v else assocFind k t

/-- Apply `f` to every value whose key satisfies `P`. -/
def assocMapIf {α : Type} (P : Nat → Bool) (f : α → α)
    (l : List (Nat × α)) : List (Nat × α) :=
  l.map fun p => if P p.1 then (p.1, f p.2) else p

/-- Apply `f` to the values stored under key `k`. -/
def assocUpdate {α : Type} (k : Nat) (f : α → α)
    (l : List (Nat × α)) : List (Nat × α) :=
  assocMapIf (fun k' => k' = k) f l

/-- Drop every entry stored under key `k`. -/
def assocRemove {α : Type} (k : Nat) (l : List (Nat × α)) :
    List (Nat × α) :=
  l.filter fun p => p.1 ≠ k

/-! ## The binding directory

Modelled from the spec: the `Blockly.BoundVariables` directory
(`core/bound_variables.js` is not part of the sources; spec section
4.3) registers binders and references per workspace; binder records
carry the `variableName_`/`referenceList_`/`deleteLater_` state of
`Blockly.BoundVariableValue` and a destroyed binder is one no longer
registered. Reference records (class
`Blockly.BoundVariableValueReference`, also not in the sources; spec
section 3) carry a display name and a nullable bound-binder link.
Binding a reference names it from the binder's current name (spec
section 4.5, `materialize`); renaming a bound reference renames its
binder, which propagates back over the reference list (spec section
4.3, `renameBinder`). -/

/-- Directory record of one binder. -/
structure DirBinder where
  name : String
  referenceList : List Nat
  deleteLater : Bool
  deriving DecidableEq, Repr

/-- Directory record of one reference. -/
structure DirReference where
  name : String
  boundTo : Option Nat
  deriving DecidableEq, Repr

/-- The per-workspace binding directory. -/
structure DirState where
  binders : List (Nat × DirBinder)
  refs : List (Nat × DirReference)
  deriving DecidableEq, Repr

namespace DirState

/-- The empty directory of a fresh workspace. -/
def init : DirState := ⟨[], []⟩

/-- Register a fresh binder (spec 4.3 `addBinder`: the id must be
unused). -/
def newBinder (s : DirState) (bid : Nat) (name : String) :
    Option DirState :=
  match assocFind bid s.binders with
  | some _ => none
  | none => some { s with
      binders := (bid, ⟨name, [], false⟩) :: s.binders }

/-- Register a fresh, unbound reference (spec section 6
`newReference`). -/
def newReference (s : DirState) (rid : Nat) (name : String) :
    Option DirState :=
  match assocFind rid s.refs with
  | some _ => none
  | none => some { s with refs := (rid, ⟨name, none⟩) :: s.refs }

/-- `dispose` of a binder at the directory level (spec 4.3,
`BoundVariableValue.dispose` lines 140-152): destroy it at once when
the reference list is empty, otherwise schedule it. -/
def disposeBinder (s : DirState) (bid : Nat) : Option DirState :=
  match assocFind bid s.binders with
  | none => none
  | some b =>
    if b.referenceList.length = 0 then
      some { s with binders := assocRemove bid s.binders }
    else
      some { s with binders := (assocUpdate bid
        (fun b => { b with deleteLater := true }) s.binders) }

/-- Bind an unbound reference to a binder: `storeReference`
(lines 159-167) on the binder side -- refused for a duplicate or a
deleting binder -- and, per spec 4.5, the reference takes the binder's
current name and records the bound-binder link. -/
def bindReference (s : DirState) (rid bid : Nat) : Option DirState :=
  match assocFind rid s.refs, assocFind bid s.binders with
  | some r, some b =>
    if r.boundTo = none ∧ rid ∉ b.referenceList ∧ b.deleteLater = false then
      some { s with
        binders := (assocUpdate bid
          (fun b => { b with referenceList := b.referenceList ++ [rid] })
          s.binders),
        refs := (assocUpdate rid
          (fun r => { r with name := b.name, boundTo := some bid })
          s.refs) }
    else none
  | _, _ => none

/-- Unbind a bound reference: `removeReference` (lines 174-185) on the
binder side, including the deferred-disposal cascade, and the
reference's bound-binder link is cleared. -/
def unbindReference (s : DirState) (rid : Nat) : Option DirState :=
  match assocFind rid s.refs with
  | none => none
  | some r =>
    match r.boundTo with
    | none => none
    | some bid =>
      match assocFind bid s.binders with
      | none => none
      | some b =>
        if rid ∈ b.referenceList then
          some { s with
            binders :=
              (if b.deleteLater ∧ (b.referenceList.erase rid).length = 0 then
                assocRemove bid s.binders
              else
                assocUpdate bid
                  (fun b => { b with
                    referenceList := b.referenceList.erase rid }) s.binders),
            refs := (assocUpdate rid
              (fun r => { r with boundTo := none }) s.refs) }
        else none

/-- Rename a binder (`setVariableName`, lines 119-128): no-op when
unchanged, otherwise update the binder's name and the display name of
every reference in its reference list. -/
def renameBinder (s : DirState) (bid : Nat) (newName : String) :
    Option DirState :=
  match assocFind bid s.binders with
  | none => none
  | some b =>
    if b.name = newName then some s
    else some { s with
      binders := (assocUpdate bid (fun b => { b with name := newName })
        s.binders),
      refs := (assocMapIf (fun rid => b.referenceList.contains rid)
        (fun r => { r with name := newName }) s.refs) }

/-- Rename a reference: a bound reference delegates to its binder's
rename (which propagates back to the whole reference list, as the
nested-rename test exercises); an unbound reference just changes its
own display name. -/
def renameReference (s : DirState) (rid : Nat) (newName : String) :
    Option DirState :=
  match assocFind rid s.refs with
  | none => none
  | some r =>
    match r.boundTo with
    | some bid => renameBinder s bid newName
    | none => some { s with
        refs := (assocUpdate rid
          (fun r => { r with name := newName }) s.refs) }

end DirState

/-- One public operation of the binding directory. Structural
`connect`/`disconnect` edits never touch the directory state (they act
on connections and type terms only), so they are identity steps,
already covered by reflexivity of the reachability closure. -/
inductive DirStep : DirState → DirState → Prop
  | newBinder (s : DirState) (bid : Nat) (n : String) (s' : DirState) :
      s.newBinder bid n = some s' → DirStep s s'
  | newReference (s : DirState) (rid : Nat) (n : String) (s' : DirState) :
      s.newReference rid n = some s' → DirStep s s'
  | disposeBinder (s : DirState) (bid : Nat) (s' : DirState) :
      s.disposeBinder bid = some s' → DirStep s s'
  | bindReference (s : DirState) (rid bid : Nat) (s' : DirState) :
      s.bindReference rid bid = some s' → DirStep s s'
  | unbindReference (s : DirState) (rid : Nat) (s' : DirState) :
      s.unbindReference rid = some s' → DirStep s s'
  | renameBinder (s : DirState) (bid : Nat) (n : String) (s' : DirState) :
      s.renameBinder bid n = some s' → DirStep s s'
  | renameReference (s : DirState) (rid : Nat) (n : String) (s' : DirState) :
      s.renameReference rid n = some s' → DirStep s s'

/-- Directory states reachable from a fresh workspace by the public
operations. -/
def DirReachable (s : DirState) : Prop :=
  Relation.ReflTransGen DirStep DirState.init s

/-- The coupling invariant of the directory: (a) every bound reference
points at a registered binder, bears its name, and appears in its
reference list; (b) every reference-list entry is a registered
reference bound to that binder; (c) reference lists have no
duplicates. -/
def DirInv (s : DirState) : Prop :=
  (∀ rid r bid, assocFind rid s.refs = some r → r.boundTo = some bid →
    ∃ b, assocFind bid s.binders = some b ∧ r.name = b.name ∧
      rid ∈ b.referenceList) ∧
  (∀ bid b rid, assocFind bid s.binders = some b →
    rid ∈ b.referenceList →
    ∃ r, assocFind rid s.refs = some r ∧ r.boundTo = some bid) ∧
  (∀ bid b, assocFind bid s.binders = some b → b.referenceList.Nodup)

/-! ## The type-term arena and unification engine

Modelled from the spec: `Blockly.TypeExpr` and `Blockly.Connection`
(`core/type_expr.js`, `core/connection.js`) are not part of the
sources; spec sections 3, 4.1, 4.2 and the design note of section 9
describe them. Terms live in an arena of term slots indexed by
handle (section 9: "implement as an arena of term-slots indexed by
handle"); a solved variable is `bound target` and `deref` chases
`bound` links to the representative; constructor arguments are
handles into the same arena. -/

/-- One term-slot of the arena (spec section 3: `Unbound`, `Bound`,
the concrete constructors, and `Unknown`). -/
inductive Term where
  | unbound
  | bound (target : Nat)
  | int
  | float
  | bool
  | str
  | fn (arg ret : Nat)
  | list (elem : Nat)
  | pair (fst snd : Nat)
  | record (fields : List (String × Nat))
  | unknown
  deriving DecidableEq, Repr

/-- A term that is neither a variable nor a solved variable: a
concrete type constructor. -/
def Term.isConcrete : Term → Bool
  | Term.unbound => false
  | Term.bound _ => false
  | _ => true

/-- `deref` (spec 4.1): follow `bound` links to the representative,
with explicit fuel (the recursion of the shallow embedding). -/
def derefFuel (a : List Term) : Nat → Nat → Nat
  | 0, i => i
  | fuel + 1, i =>
    match a[i]? with
    | some (Term.bound j) => derefFuel a fuel j
    | _ => i

/-- `deref` with enough fuel to traverse any acyclic chain. -/
def deref (a : List Term) (i : Nat) : Nat :=
  derefFuel a a.length i

/-- The slot a handle resolves to holds no further `bound` link. -/
def notBoundAt (a : List Term) (i : Nat) : Bool :=
  match a[i]? with
  | some (Term.bound _) => false
  | _ => true

/-- Every `bound` link of the arena stays inside the arena. -/
def arenaWF (a : List Term) : Bool :=
  a.all fun t =>
    match t with
    | Term.bound j => j < a.length
    | _ => true

/-- The occurs check (spec 4.1): does variable `v` occur in the term
rooted at `i`? -/
def occursFuel (a : List Term) : Nat → Nat → Nat → Bool
  | 0, _, _ => true
  | fuel + 1, v, i =>
    let ri := deref a i
    if ri = v then true
    else
      match a[ri]? with
      | some (Term.fn arg ret) =>
          occursFuel a fuel v arg || occursFuel a fuel v ret
      | some (Term.list elem) => occursFuel a fuel v elem
      | some (Term.pair fst snd) =>
          occursFuel a fuel v fst || occursFuel a fuel v snd
      | some (Term.record fields) =>
          fields.any fun p => occursFuel a fuel v p.2
      | _ => false

/-- Type errors of the unification engine (spec section 7). The
`FuelExhausted` constructor is the shallow embedding's image of
non-termination on cyclic stores; it never arises on well-formed
acyclic input. -/
inductive TypeError where
  | Inconsistent
  | OccursCheck
  | ArityOrShapeMismatch
  | FuelExhausted
  deriving DecidableEq, Repr

/-- Look up a record field handle by name. -/
def findField (n : String) (fs : List (String × Nat)) : Option Nat :=
  (fs.find? fun p => p.1 == n).map fun p => p.2

/-- `unify` (spec 4.1): dereference both sides; bind an unbound side
to the other after the occurs check (the single point where sharing
changes); same concrete constructors recurse over their arguments
(records by field name, order-insensitively, with an arity/shape
error on field-set mismatch); different constructors are
inconsistent. -/
def unifyFuel : Nat → List Term → Nat → Nat → Except TypeError (List Term)
  | 0, _, _, _ => .error .FuelExhausted
  | fuel + 1, a, i, j =>
    let ri := deref a i
    let rj := deref a j
    if ri = rj then .ok a
    else
      match a[ri]?, a[rj]? with
      | some Term.unbound, _ =>
          if occursFuel a (fuel + 1) ri rj then .error .OccursCheck
          else .ok (a.set ri (Term.bound rj))
      | _, some Term.unbound =>
          if occursFuel a (fuel + 1) rj ri then .error .OccursCheck
          else .ok (a.set rj (Term.bound ri))
      | some Term.int, some Term.int => .ok a
      | some Term.float, some Term.float => .ok a
      | some Term.bool, some Term.bool => .ok a
      | some Term.str, some Term.str => .ok a
      | some Term.unknown, some Term.unknown => .ok a
      | some (Term.fn arg1 ret1), some (Term.fn arg2 ret2) => do
          let a' ← unifyFuel fuel a arg1 arg2
          unifyFuel fuel a' ret1 ret2
      | some (Term.list e1), some (Term.list e2) =>
          unifyFuel fuel a e1 e2
      | some (Term.pair f1 s1), some (Term.pair f2 s2) => do
          let a' ← unifyFuel fuel a f1 f2
          unifyFuel fuel a' s1 s2
      | some (Term.record fs1), some (Term.record fs2) =>
          if fs1.length = fs2.length then
            fs1.foldlM
              (fun acc p =>
                match findField p.1 fs2 with
                | none => .error .ArityOrShapeMismatch
                | some t2 => unifyFuel fuel acc p.2 t2)
              a
          else .error .ArityOrShapeMismatch
      | _, _ => .error .Inconsistent

/-- A structural attachment point (spec section 3, `Connection`):
owns one type-term handle and an optional peer link while joined. -/
structure Connection where
  term : Nat
  peer : Option Nat
  deriving DecidableEq, Repr

/-- A variable reference as the type system sees it (spec section 3,
`BoundVariableValueReference`): its own independently owned type-term
handle and the nullable bound-binder link. -/
structure VarRef where
  typeExpr : Nat
  boundValue : Option Nat
  deriving DecidableEq, Repr

/-- The unification-side state of a graph: the term arena, the
connections, and the variable references living on the graph. -/
structure TypeState where
  arena : List Term
  conns : List Connection
  refs : List VarRef
  deriving DecidableEq, Repr

/-- All handles of the state point into the arena. -/
def TypeState.wfb (s : TypeState) : Bool :=
  arenaWF s.arena &&
    s.conns.all (fun c => c.term < s.arena.length) &&
    s.refs.all (fun r => r.typeExpr < s.arena.length)

/-- `connect` (spec 4.2): unify the two connections' terms; on
success alias both connections' term slots to the unified
representative and record the peer link both ways; on failure report
the type error and leave the whole state exactly as it was (the
failed unification's mutations are not retained -- spec section 5,
cancellation). -/
def connect (s : TypeState) (i j : Nat) : TypeState × Option TypeError :=
  match s.conns[i]?, s.conns[j]? with
  | some ci, some cj =>
    match unifyFuel (s.arena.length + 1) s.arena ci.term cj.term with
    | .error e => (s, some e)
    | .ok a' =>
      let rep := deref a' ci.term
      ({ s with
          arena := a',
          conns := (s.conns.set i { ci with term := rep, peer := some j
            }).set j { cj with term := rep, peer := some i } }, none)
  | _, _ => (s, some TypeError.Inconsistent)

/-- Does some other live (attached) connection than `excluded` still
dereference to the representative `rep`? (spec 4.1, `reset`) -/
def sharesRep (a : List Term) (conns : List Connection)
    (excluded rep : Nat) : Bool :=
  (List.range conns.length).any fun k =>
    decide (k ≠ excluded) &&
      match conns[k]? with
      | some c => c.peer.isSome && decide (deref a c.term = rep)
      | none => false

/-- `reset` (spec 4.1), applied to one disconnecting slot: when some
other live connection still shares the slot's representative, the
representative is left untouched for the survivors and only this slot
receives a freshly allocated unbound term; when no live connection
shares it, the slot's own solved variable is additionally cleared back
to unbound (this is "clearing a type variable on disconnect") before
the slot receives its fresh unbound term. -/
def reset (s : TypeState) (i : Nat) : TypeState :=
  match s.conns[i]? with
  | none => s
  | some c =>
    let rep := deref s.arena c.term
    if sharesRep s.arena s.conns i rep then
      { s with
          arena := s.arena ++ [Term.unbound],
          conns := s.conns.set i { c with term := s.arena.length } }
    else
      { s with
          arena :=
            (match s.arena[c.term]? with
             | some (Term.bound _) => s.arena.set c.term Term.unbound
             | _ => s.arena) ++ [Term.unbound],
          conns := s.conns.set i { c with term := s.arena.length } }

/-- `disconnect` (spec 4.2): remove the peer link both ways, then
`reset` each side independently. References and their bound-binder
links are never touched. -/
def disconnect (s : TypeState) (i j : Nat) : TypeState :=
  match s.conns[i]?, s.conns[j]? with
  | some ci, some cj =>
    if ci.peer = some j ∧ cj.peer = some i then
      reset
        (reset
          { s with conns := (s.conns.set i { ci with peer := none
              }).set j { cj with peer := none } } i) j
    else s
  | _, _ => s

/-! ## The scope resolver

Modelled from the spec: the scope resolver (`resolveReference` on
blocks and references; spec section 4.4) is not part of the sources.
An anchor position is modelled as the innermost-first list of lexical
scope frames visible from it, each frame being one binder (id and
name) whose scope input encloses the position. An anchor inside an
isolated sub-context (workbench) is the concatenation of the frames
introduced inside the sub-context with the frames of the
sub-context's *original* (pre-detachment) anchor -- detachment must
not widen or narrow true scope. Binding a reference at an anchor is
legal exactly when the innermost frame bearing the reference's name is
the reference's own bound binder (walking up from the anchor, the
binder's declaring node is encountered before the name is
re-introduced). -/

/-- One lexical scope frame: the binder declared there and its
name. -/
structure ScopeFrame where
  bid : Nat
  name : String
  deriving DecidableEq, Repr

/-- `resolve(reference, candidateAnchor)` (spec 4.4): legal iff the
nearest enclosing binder with the reference's name is the reference's
bound binder. -/
def resolveReference (boundTo : Nat) (name : String)
    (anchor : List ScopeFrame) : Bool :=
  match anchor.find? (fun f => f.name == name) with
  | some f => f.bid == boundTo
  | none => false

/-! ### Concrete states used by witnesses -/

/-- Directory state after: new binder 0 named `x`, new reference 1
named `u`, then binding 1 to 0 (the bind renames the reference to
`x`). -/
def dirW3 : DirState :=
  ⟨[(0, ⟨"x", [1], false⟩)], [(1, ⟨"x", some 0⟩)]⟩

/-- Unification-side state used by the C6 witness: a type variable at
handle 0 and `int` at handle 1, two unattached connections. -/
def c6s : TypeState :=
  ⟨[Term.unbound, Term.int], [⟨0, none⟩, ⟨1, none⟩], []⟩

/-- Unification-side state used by the C8 witness: `int` against
`bool`, which do not unify. -/
def c8s : TypeState :=
  ⟨[Term.int, Term.bool], [⟨0, none⟩, ⟨1, none⟩], []⟩

/-- Concrete state for the C7 witness: four connections joined in two
pairs (0-1 and 2-3), all four sharing the concrete representative
`int` at handle 0. -/
def c7s : TypeState :=
  ⟨[Term.int],
    [⟨0, some 1⟩, ⟨0, some 0⟩, ⟨0, some 3⟩, ⟨0, some 2⟩], []⟩

/-- Concrete state for the C10 witness: the same two joined pairs
sharing the concrete `bool` at handle 0, plus one reference whose own
term is handle 0 and which is bound to binder 42. -/
def c10s : TypeState :=
  ⟨[Term.bool],
    [⟨0, some 1⟩, ⟨0, some 0⟩, ⟨0, some 3⟩, ⟨0, some 2⟩],
    [⟨0, some 42⟩]⟩

end OcamlBlockly

namespace OcamlBlockly

open BoundVariableValue

/-- C1: deferred disposal of a binder. Disposing a binder with an
empty reference list destroys it at once (directory registration,
workspace, typed-value slot, source block and type expression are all
released); disposing a binder with a non-empty reference list only
sets `deleteLater_` and destroys nothing; and a removal of a
reference from the deferred binder destroys it exactly when it empties
the reference list. -/
theorem dispose_deferred_correct (s : BoundVariableValue) (h : s.live) :
    (s.referenceList = [] → s.dispose.destroyed) ∧
    (s.referenceList ≠ [] →
      s.dispose = { s with deleteLater := true } ∧
      ¬ s.dispose.destroyed ∧
      ∀ r s', s.dispose.removeReference r = .ok s' →
        (s'.destroyed ↔ s'.referenceList = [])) := by
  obtain ⟨h1, h2, h3, h4, h5⟩ := h
  constructor
  · intro hnil
    simp [dispose, hnil, destroyed]
  · intro hne
    have hlen : s.referenceList.length ≠ 0 := by
      simpa using hne
    have hdis : s.dispose = { s with deleteLater := true } := by
      simp [dispose, hlen]
    refine ⟨hdis, ?_, ?_⟩
    · rw [hdis]
      intro hd
      exact absurd hd.1 (by simp [h1])
    · intro r s' hrem
      rw [hdis] at hrem
      revert hrem
      unfold removeReference
      by_cases hmem : ({ s with deleteLater := true } :
          BoundVariableValue).referenceList.contains r
      · rw [if_pos hmem]
        by_cases hemp : (s.referenceList.erase r).length = 0
        · rw [if_pos ⟨rfl, hemp⟩]
          intro hrem
          injection hrem with hrem
          subst hrem
          constructor
          · intro _
            have : (s.referenceList.erase r) = [] := by
              simpa using hemp
            simp [dispose, hemp, this]
          · intro _
            simp [dispose, hemp, destroyed]
        · rw [if_neg (fun hc => hemp hc.2)]
          intro hrem
          injection hrem with hrem
          subst hrem
          constructor
          · intro hd
            exact absurd hd.1 (by simp [h1])
          · intro hl
            have : (s.referenceList.erase r).length = 0 := by
              have hl' : s.referenceList.erase r = [] := hl
              simp [hl']
            exact absurd this hemp
      · rw [if_neg hmem]
        intro hrem
        exact absurd hrem (by simp)

/-- Witness for C1 at a binder with two references (5 and 7): removing
reference 5 from the deferred binder does not destroy it, removing
reference 7 then does. -/
theorem dispose_deferred_correct_witness :
    (c1mid.destroyed ↔ c1mid.referenceList = []) ∧ c1fin.destroyed :=
  have hA := (dispose_deferred_correct c1ex (by decide)).2 (by decide)
  have hB := (dispose_deferred_correct c1pre (by decide)).2 (by decide)
  ⟨hA.2.2 5 c1mid (by rfl),
   (hB.2.2 7 c1fin (by rfl)).mpr (by decide)⟩

/-- C2: `storeReference` fails with the duplicate-reference error when
the reference is already in the reference list, fails with the
binder-deleting error when the binder is scheduled for deletion, and
otherwise appends the reference, changing no other binder state. -/
theorem storeReference_spec (s : BoundVariableValue) (r : Nat) :
    (r ∈ s.referenceList →
      s.storeReference r = .error .DuplicateReference) ∧
    (r ∉ s.referenceList → s.deleteLater = true →
      s.storeReference r = .error .BinderDeleting) ∧
    (r ∉ s.referenceList → s.deleteLater = false →
      s.storeReference r =
        .ok { s with referenceList := s.referenceList ++ [r] }) := by
  refine ⟨fun hmem => ?_, fun hmem hdel => ?_, fun hmem hdel => ?_⟩
  · simp [storeReference, hmem]
  · simp [storeReference, hmem, hdel]
  · simp [storeReference, hmem, hdel]

/-- Witness for C2: on a binder holding reference 3, storing 3 again
is the duplicate error; on a deleting binder, storing 4 is the
binder-deleting error; on a live binder, storing 4 appends it. -/
theorem storeReference_spec_witness :
    c2ex.storeReference 3 = .error .DuplicateReference ∧
    c2exDel.storeReference 4 = .error .BinderDeleting ∧
    c2ex.storeReference 4 =
      .ok { c2ex with referenceList := [3, 4] } :=
  ⟨(storeReference_spec c2ex 3).1 (by decide),
   (storeReference_spec c2exDel 4).2.1 (by decide) (by decide),
   (storeReference_spec c2ex 4).2.2 (by decide) (by decide)⟩

/-- C3: `removeReference` fails with the reference-not-found error
when the reference is absent; on success it erases the reference and,
when the binder is scheduled for deletion and the list became empty,
destroys the binder (directory, workspace, typed-value slot, source
block and type expression all released); otherwise the binder stays
live. -/
theorem removeReference_spec (s : BoundVariableValue) (r : Nat)
    (h : s.live) :
    (r ∉ s.referenceList →
      s.removeReference r = .error .ReferenceNotFound) ∧
    (r ∈ s.referenceList →
      ∃ s', s.removeReference r = .ok s' ∧
        s'.referenceList = s.referenceList.erase r ∧
        s'.variableName = s.variableName ∧
        (s.deleteLater = true ∧ s.referenceList.erase r = [] →
          s'.destroyed) ∧
        (¬ (s.deleteLater = true ∧ s.referenceList.erase r = []) →
          s'.live)) := by
  obtain ⟨h1, h2, h3, h4, h5⟩ := h
  have hcnt : (s.referenceList.contains r) = (decide (r ∈ s.referenceList)) := by
    simp
  constructor
  · intro hmem
    simp [removeReference, hmem]
  · intro hmem
    by_cases hcase : s.deleteLater = true ∧ s.referenceList.erase r = []
    · have hlen : (s.referenceList.erase r).length = 0 := by
        simp [hcase.2]
      refine ⟨BoundVariableValue.dispose
        { s with referenceList := s.referenceList.erase r }, ?_, ?_, ?_, ?_, ?_⟩
      · unfold removeReference
        rw [if_pos (by simpa using hmem), if_pos ⟨hcase.1, hlen⟩]
      · simp [dispose, hlen]
      · simp [dispose, hlen]
      · intro _
        simp [dispose, hlen, destroyed]
      · intro hc
        exact absurd hcase hc
    · have hlen : ¬ (s.deleteLater = true ∧
          (s.referenceList.erase r).length = 0) := by
        intro hc
        exact hcase ⟨hc.1, by simpa using hc.2⟩
      refine ⟨{ s with referenceList := s.referenceList.erase r },
        ?_, ?_, ?_, ?_, ?_⟩
      · unfold removeReference
        rw [if_pos (by simpa using hmem), if_neg hlen]
      · rfl
      · rfl
      · intro hc
        exact absurd hc hcase
      · intro _
        exact ⟨h1, h2, h3, h4, h5⟩

/-- Witness for C3: on a live binder holding references 5 and 7 (not
scheduled for deletion), removing 9 is the not-found error and
removing 5 succeeds, leaving a live binder holding 7. -/
theorem removeReference_spec_witness :
    c1ex.removeReference 9 = .error .ReferenceNotFound ∧
    ∃ s', c1ex.removeReference 5 = .ok s' ∧
      s'.referenceList = [7] ∧ s'.variableName = "x" ∧
      (c1ex.deleteLater = true ∧ [7] = ([] : List Nat) → s'.destroyed) ∧
      (¬ (c1ex.deleteLater = true ∧ [7] = ([] : List Nat)) → s'.live) :=
  have h := removeReference_spec c1ex 5 (by decide)
  ⟨(removeReference_spec c1ex 9 (by decide)).1 (by decide),
   by simpa [c1ex] using h.2 (by decide)⟩

/-- C4: renaming a binder to its current name is a no-op (no reference
name is touched and no refresh is signalled); renaming it to a
different name updates the stored name, sets the new name on exactly
the references currently in the reference list (so after a reference
was removed, only the remaining ones), and signals the owning field to
refresh. -/
theorem setVariableName_spec (s : BoundVariableValue)
    (names : Nat → String) (newName : String) :
    s.setVariableName names s.variableName = (s, names, false) ∧
    (newName ≠ s.variableName →
      (s.setVariableName names newName).1 =
        { s with variableName := newName } ∧
      (s.setVariableName names newName).2.2 = true ∧
      (∀ r, r ∈ s.referenceList →
        (s.setVariableName names newName).2.1 r = newName) ∧
      (∀ r, r ∉ s.referenceList →
        (s.setVariableName names newName).2.1 r = names r)) := by
  constructor
  · simp [setVariableName]
  · intro hne
    have hne' : s.variableName ≠ newName := fun hc => hne hc.symm
    refine ⟨by simp [setVariableName, hne'], by simp [setVariableName, hne'],
      fun r hr => ?_, fun r hr => ?_⟩
    · simp [setVariableName, hne', hr]
    · simp [setVariableName, hne', hr]

/-- Witness for C4 at a binder named `y` holding references 5 and 7:
renaming to `y` is a no-op with no refresh; renaming to `z` renames
the binder, reference 5, but not the absent reference 9, and signals
the refresh. -/
theorem setVariableName_spec_witness :
    c4ex.setVariableName c4names "y" = (c4ex, c4names, false) ∧
    (c4ex.setVariableName c4names "z").1.variableName = "z" ∧
    (c4ex.setVariableName c4names "z").2.1 5 = "z" ∧
    (c4ex.setVariableName c4names "z").2.1 9 = "y" :=
  have h := setVariableName_spec c4ex c4names "z"
  have h2 := h.2 (by decide)
  ⟨h.1, by rw [h2.1], h2.2.2.1 5 (by decide),
    by rw [h2.2.2.2 9 (by decide)]; rfl⟩

/-! ### Association-list lemmas -/

theorem assocFind_cons {α : Type} (k k0 : Nat) (v : α) (t : List (Nat × α)) :
    assocFind k ((k0, v) :: t) =
      if k0 = k then some v else assocFind k t := rfl

theorem assocFind_mapIf {α : Type} (P : Nat → Bool) (f : α → α)
    (l : List (Nat × α)) (k : Nat) :
    assocFind k (assocMapIf P f l) =
      (assocFind k l).map (fun v => if P k then f v else v) := by
  induction l with
  | nil => rfl
  | cons p t ih =>
    obtain ⟨k0, v⟩ := p
    simp only [assocMapIf, List.map_cons] at ih ⊢
    by_cases hp : P k0
    · rw [if_pos hp]
      by_cases hk : k0 = k
      · subst hk
        simp [assocFind, hp, ih]
      · simp [assocFind, hk, ih]
    · rw [if_neg hp]
      by_cases hk : k0 = k
      · subst hk
        simp [assocFind, hp, ih]
      · simp [assocFind, hk, ih]

theorem assocFind_update_self {α : Type} (k : Nat) (f : α → α)
    (l : List (Nat × α)) :
    assocFind k (assocUpdate k f l) = (assocFind k l).map f := by
  simp [assocUpdate, assocFind_mapIf]

theorem assocFind_update_ne {α : Type} {k k' : Nat} (h : k' ≠ k)
    (f : α → α) (l : List (Nat × α)) :
    assocFind k' (assocUpdate k f l) = assocFind k' l := by
  rw [assocUpdate, assocFind_mapIf]
  cases assocFind k' l with
  | none => rfl
  | some v => simp [h]

theorem assocFind_remove_self {α : Type} (k : Nat) (l : List (Nat × α)) :
    assocFind k (assocRemove k l) = none := by
  induction l with
  | nil => rfl
  | cons p t ih =>
    obtain ⟨k0, v⟩ := p
    by_cases hk : k0 = k
    · subst hk
      simpa [assocRemove, List.filter] using ih
    · simpa [assocRemove, List.filter, assocFind, hk] using ih

theorem assocFind_remove_ne {α : Type} {k k' : Nat} (h : k' ≠ k)
    (l : List (Nat × α)) :
    assocFind k' (assocRemove k l) = assocFind k' l := by
  induction l with
  | nil => rfl
  | cons p t ih =>
    obtain ⟨k0, v⟩ := p
    by_cases hk : k0 = k
    · subst hk
      have hne : ¬ (k0 = k') := fun hc => h hc.symm
      simpa [assocRemove, List.filter, assocFind, hne] using ih
    · by_cases hk' : k0 = k'
      · subst hk'
        simp [assocRemove, List.filter, assocFind, hk]
      · simpa [assocRemove, List.filter, assocFind, hk, hk'] using ih

/-! ### Preservation of the directory invariant -/

theorem dirInv_newBinder {s s' : DirState} {bid : Nat} {n : String}
    (hinv : DirInv s) (h : s.newBinder bid n = some s') : DirInv s' := by
  obtain ⟨ha, hb, hc⟩ := hinv
  unfold DirState.newBinder at h
  cases hfind : assocFind bid s.binders with
  | some b => rw [hfind] at h; cases h
  | none =>
    rw [hfind] at h
    injection h with h
    subst h
    refine ⟨?_, ?_, ?_⟩
    · intro rid r bid0 hr hbnd
      obtain ⟨b0, hb0, hname, hmem⟩ := ha rid r bid0 hr hbnd
      refine ⟨b0, ?_, hname, hmem⟩
      by_cases hbb : bid = bid0
      · subst hbb
        rw [hfind] at hb0
        cases hb0
      · rw [assocFind_cons, if_neg hbb]
        exact hb0
    · intro bid0 b0 rid hb0 hmem
      by_cases hbb : bid = bid0
      · subst hbb
        rw [assocFind_cons, if_pos rfl] at hb0
        injection hb0 with hb0
        subst hb0
        cases hmem
      · rw [assocFind_cons, if_neg hbb] at hb0
        exact hb bid0 b0 rid hb0 hmem
    · intro bid0 b0 hb0
      by_cases hbb : bid = bid0
      · subst hbb
        rw [assocFind_cons, if_pos rfl] at hb0
        injection hb0 with hb0
        subst hb0
        exact List.nodup_nil
      · rw [assocFind_cons, if_neg hbb] at hb0
        exact hc bid0 b0 hb0

theorem dirInv_newReference {s s' : DirState} {rid : Nat} {n : String}
    (hinv : DirInv s) (h : s.newReference rid n = some s') : DirInv s' := by
  obtain ⟨ha, hb, hc⟩ := hinv
  unfold DirState.newReference at h
  cases hfind : assocFind rid s.refs with
  | some r => rw [hfind] at h; cases h
  | none =>
    rw [hfind] at h
    injection h with h
    subst h
    refine ⟨?_, ?_, hc⟩
    · intro rid0 r bid0 hr hbnd
      by_cases hrr : rid = rid0
      · subst hrr
        rw [assocFind_cons, if_pos rfl] at hr
        injection hr with hr
        subst hr
        cases hbnd
      · rw [assocFind_cons, if_neg hrr] at hr
        exact ha rid0 r bid0 hr hbnd
    · intro bid0 b0 rid0 hb0 hmem
      obtain ⟨r, hr, hbnd⟩ := hb bid0 b0 rid0 hb0 hmem
      by_cases hrr : rid = rid0
      · subst hrr
        rw [hfind] at hr
        cases hr
      · refine ⟨r, ?_, hbnd⟩
        rw [assocFind_cons, if_neg hrr]
        exact hr

theorem dirInv_disposeBinder {s s' : DirState} {bid : Nat}
    (hinv : DirInv s) (h : s.disposeBinder bid = some s') : DirInv s' := by
  obtain ⟨ha, hb, hc⟩ := hinv
  unfold DirState.disposeBinder at h
  cases hfind : assocFind bid s.binders with
  | none => rw [hfind] at h; cases h
  | some b =>
    rw [hfind] at h
    dsimp only at h
    by_cases hlen : b.referenceList.length = 0
    · rw [if_pos hlen] at h
      injection h with h
      subst h
      refine ⟨?_, ?_, ?_⟩
      · intro rid0 r bid0 hr hbnd
        obtain ⟨b0, hb0, hname, hmem⟩ := ha rid0 r bid0 hr hbnd
        by_cases hbb : bid0 = bid
        · subst hbb
          rw [hfind] at hb0
          injection hb0 with hb0
          subst hb0
          rw [List.length_eq_zero] at hlen
          rw [hlen] at hmem
          cases hmem
        · refine ⟨b0, ?_, hname, hmem⟩
          rw [assocFind_remove_ne hbb]
          exact hb0
      · intro bid0 b0 rid0 hb0 hmem
        by_cases hbb : bid0 = bid
        · subst hbb
          rw [assocFind_remove_self] at hb0
          cases hb0
        · rw [assocFind_remove_ne hbb] at hb0
          exact hb bid0 b0 rid0 hb0 hmem
      · intro bid0 b0 hb0
        by_cases hbb : bid0 = bid
        · subst hbb
          rw [assocFind_remove_self] at hb0
          cases hb0
        · rw [assocFind_remove_ne hbb] at hb0
          exact hc bid0 b0 hb0
    · rw [if_neg hlen] at h
      injection h with h
      subst h
      refine ⟨?_, ?_, ?_⟩
      · intro rid0 r bid0 hr hbnd
        obtain ⟨b0, hb0, hname, hmem⟩ := ha rid0 r bid0 hr hbnd
        by_cases hbb : bid0 = bid
        · subst hbb
          refine ⟨{ b0 with deleteLater := true }, ?_, hname, hmem⟩
          rw [assocFind_update_self, hb0]
          rfl
        · refine ⟨b0, ?_, hname, hmem⟩
          rw [assocFind_update_ne hbb]
          exact hb0
      · intro bid0 b0 rid0 hb0 hmem
        by_cases hbb : bid0 = bid
        · subst hbb
          rw [assocFind_update_self, hfind] at hb0
          injection hb0 with hb0
          subst hb0
          exact hb bid0 b rid0 hfind hmem
        · rw [assocFind_update_ne hbb] at hb0
          exact hb bid0 b0 rid0 hb0 hmem
      · intro bid0 b0 hb0
        by_cases hbb : bid0 = bid
        · subst hbb
          rw [assocFind_update_self, hfind] at hb0
          injection hb0 with hb0
          subst hb0
          exact hc bid0 b hfind
        · rw [assocFind_update_ne hbb] at hb0
          exact hc bid0 b0 hb0

theorem assocFind_update_self_of {α : Type} {k : Nat} {f : α → α}
    {l : List (Nat × α)} {v : α} (h : assocFind k l = some v) :
    assocFind k (assocUpdate k f l) = some (f v) := by
  rw [assocFind_update_self, h]
  rfl

theorem assocFind_update_cases {α : Type} {k k0 : Nat} {f : α → α}
    {l : List (Nat × α)} {v0 : α}
    (h : assocFind k0 (assocUpdate k f l) = some v0) :
    (k0 = k ∧ ∃ v, assocFind k0 l = some v ∧ v0 = f v) ∨
    (k0 ≠ k ∧ assocFind k0 l = some v0) := by
  by_cases hkk : k0 = k
  · subst hkk
    rw [assocFind_update_self] at h
    cases hv : assocFind k0 l with
    | none => rw [hv] at h; cases h
    | some v =>
      rw [hv] at h
      injection h with h
      exact Or.inl ⟨rfl, v, rfl, h.symm⟩
  · rw [assocFind_update_ne hkk] at h
    exact Or.inr ⟨hkk, h⟩

theorem assocFind_mapIf_cases {α : Type} {P : Nat → Bool} {f : α → α}
    {l : List (Nat × α)} {k : Nat} {v0 : α}
    (h : assocFind k (assocMapIf P f l) = some v0) :
    ∃ v, assocFind k l = some v ∧ v0 = if P k then f v else v := by
  rw [assocFind_mapIf] at h
  cases hv : assocFind k l with
  | none => rw [hv] at h; cases h
  | some v =>
    rw [hv] at h
    injection h with h
    exact ⟨v, rfl, h.symm⟩

theorem dirInv_bindReference {s s' : DirState} {rid bid : Nat}
    (hinv : DirInv s) (h : s.bindReference rid bid = some s') : DirInv s' := by
  obtain ⟨ha, hb, hc⟩ := hinv
  unfold DirState.bindReference at h
  cases hr : assocFind rid s.refs with
  | none => rw [hr] at h; cases h
  | some r =>
    cases hbf : assocFind bid s.binders with
    | none => rw [hr, hbf] at h; cases h
    | some b =>
      rw [hr, hbf] at h
      dsimp only at h
      by_cases hcond :
          r.boundTo = none ∧ rid ∉ b.referenceList ∧ b.deleteLater = false
      case neg => rw [if_neg hcond] at h; cases h
      rw [if_pos hcond] at h
      injection h with h
      subst h
      obtain ⟨hub, hnmem, _⟩ := hcond
      refine ⟨?_, ?_, ?_⟩
      · intro rid0 r0 bid0 hr0 hbnd0
        dsimp only at hr0 ⊢
        rcases assocFind_update_cases hr0 with ⟨hrr, v, hv, hv0⟩ | ⟨hrr, hv⟩
        · subst hrr
          have hvr : r = v := by
            rw [hr] at hv
            exact Option.some.inj hv
          subst hvr
          subst hv0
          dsimp only at hbnd0
          have hbb : bid = bid0 := Option.some.inj hbnd0
          subst hbb
          refine ⟨{ b with referenceList := b.referenceList ++ [rid0] },
            assocFind_update_self_of hbf, rfl, by simp⟩
        · obtain ⟨b0, hb0, hname, hmem⟩ := ha rid0 r0 bid0 hv hbnd0
          by_cases hbb : bid0 = bid
          · subst hbb
            have hb0b : b = b0 := by
              rw [hbf] at hb0
              exact Option.some.inj hb0
            subst hb0b
            exact ⟨{ b with referenceList := b.referenceList ++ [rid] },
              assocFind_update_self_of hbf, hname, by simp [hmem]⟩
          · exact ⟨b0, by rw [assocFind_update_ne hbb]; exact hb0, hname, hmem⟩
      · intro bid0 b0 rid0 hb0 hmem0
        dsimp only at hb0 ⊢
        rcases assocFind_update_cases hb0 with ⟨hbb, v, hv, hv0⟩ | ⟨hbb, hv⟩
        · subst hbb
          have hvb : b = v := by
            rw [hbf] at hv
            exact Option.some.inj hv
          subst hvb
          subst hv0
          dsimp only at hmem0
          rcases List.mem_append.mp hmem0 with hold | hnew
          · have hne : rid0 ≠ rid := fun hc' => hnmem (hc' ▸ hold)
            obtain ⟨r1, hr1, hbnd1⟩ := hb bid0 b rid0 hbf hold
            exact ⟨r1, by rw [assocFind_update_ne hne]; exact hr1, hbnd1⟩
          · have hrr : rid0 = rid := by simpa using hnew
            subst hrr
            exact ⟨{ r with name := b.name, boundTo := some bid0 },
              assocFind_update_self_of hr, rfl⟩
        · obtain ⟨r1, hr1, hbnd1⟩ := hb bid0 b0 rid0 hv hmem0
          have hne : rid0 ≠ rid := by
            intro hc'
            subst hc'
            rw [hr] at hr1
            have hr1' : r = r1 := Option.some.inj hr1
            rw [← hr1', hub] at hbnd1
            cases hbnd1
          exact ⟨r1, by rw [assocFind_update_ne hne]; exact hr1, hbnd1⟩
      · intro bid0 b0 hb0
        dsimp only at hb0
        rcases assocFind_update_cases hb0 with ⟨hbb, v, hv, hv0⟩ | ⟨hbb, hv⟩
        · subst hbb
          have hvb : b = v := by
            rw [hbf] at hv
            exact Option.some.inj hv
          subst hvb
          subst hv0
          dsimp only
          rw [List.nodup_append]
          refine ⟨hc bid0 b hbf, List.nodup_singleton rid, ?_⟩
          intro x hx hx'
          have hxr : x = rid := by simpa using hx'
          exact hnmem (hxr ▸ hx)
        · exact hc bid0 b0 hv

theorem dirInv_unbindReference {s s' : DirState} {rid : Nat}
    (hinv : DirInv s) (h : s.unbindReference rid = some s') : DirInv s' := by
  obtain ⟨ha, hb, hc⟩ := hinv
  unfold DirState.unbindReference at h
  cases hr : assocFind rid s.refs with
  | none => rw [hr] at h; cases h
  | some r =>
    rw [hr] at h
    dsimp only at h
    cases hbnd : r.boundTo with
    | none => rw [hbnd] at h; cases h
    | some bid =>
      rw [hbnd] at h
      dsimp only at h
      cases hbf : assocFind bid s.binders with
      | none => rw [hbf] at h; cases h
      | some b =>
        rw [hbf] at h
        dsimp only at h
        by_cases hmem : rid ∈ b.referenceList
        case neg => rw [if_neg hmem] at h; cases h
        rw [if_pos hmem] at h
        injection h with h
        have hnd : b.referenceList.Nodup := hc bid b hbf
        by_cases hdel : b.deleteLater = true ∧
            (b.referenceList.erase rid).length = 0
        · -- the binder is destroyed by the cascade
          have hsingle : b.referenceList = [rid] := by
            have h1 : b.referenceList.erase rid = [] :=
              List.length_eq_zero.mp hdel.2
            have h2 : b.referenceList.length = 1 := by
              have := List.length_erase_of_mem hmem
              rw [h1] at this
              simp only [List.length_nil] at this
              have hpos : 0 < b.referenceList.length :=
                List.length_pos_of_mem hmem
              omega
            obtain ⟨a, hael⟩ := List.length_eq_one.mp h2
            rw [hael] at hmem
            rw [hael]
            have : rid = a := by simpa using hmem
            rw [this]
          rw [if_pos hdel] at h
          subst h
          refine ⟨?_, ?_, ?_⟩
          · intro rid0 r0 bid0 hr0 hbnd0
            dsimp only at hr0 ⊢
            rcases assocFind_update_cases hr0 with ⟨hrr, v, hv, hv0⟩ | ⟨hrr, hv⟩
            · subst hrr
              have hvr : r = v := by
                rw [hr] at hv
                exact Option.some.inj hv
              subst hvr
              subst hv0
              dsimp only at hbnd0
              cases hbnd0
            · obtain ⟨b0, hb0, hname0, hmem0⟩ := ha rid0 r0 bid0 hv hbnd0
              by_cases hbb : bid0 = bid
              · subst hbb
                have hb0b : b = b0 := by
                  rw [hbf] at hb0
                  exact Option.some.inj hb0
                subst hb0b
                rw [hsingle] at hmem0
                have : rid0 = rid := by simpa using hmem0
                exact absurd this hrr
              · exact ⟨b0, by rw [assocFind_remove_ne hbb]; exact hb0,
                  hname0, hmem0⟩
          · intro bid0 b0 rid0 hb0 hmem0
            dsimp only at hb0 ⊢
            by_cases hbb : bid0 = bid
            · subst hbb
              rw [assocFind_remove_self] at hb0
              cases hb0
            · rw [assocFind_remove_ne hbb] at hb0
              obtain ⟨r1, hr1, hbnd1⟩ := hb bid0 b0 rid0 hb0 hmem0
              have hne : rid0 ≠ rid := by
                intro hceq
                subst hceq
                rw [hr] at hr1
                have : r = r1 := Option.some.inj hr1
                rw [← this, hbnd] at hbnd1
                exact hbb (Option.some.inj hbnd1).symm
              exact ⟨r1, by rw [assocFind_update_ne hne]; exact hr1, hbnd1⟩
          · intro bid0 b0 hb0
            dsimp only at hb0
            by_cases hbb : bid0 = bid
            · subst hbb
              rw [assocFind_remove_self] at hb0
              cases hb0
            · rw [assocFind_remove_ne hbb] at hb0
              exact hc bid0 b0 hb0
        · -- the binder survives with the reference erased
          rw [if_neg hdel] at h
          subst h
          refine ⟨?_, ?_, ?_⟩
          · intro rid0 r0 bid0 hr0 hbnd0
            dsimp only at hr0 ⊢
            rcases assocFind_update_cases hr0 with ⟨hrr, v, hv, hv0⟩ | ⟨hrr, hv⟩
            · subst hrr
              have hvr : r = v := by
                rw [hr] at hv
                exact Option.some.inj hv
              subst hvr
              subst hv0
              dsimp only at hbnd0
              cases hbnd0
            · obtain ⟨b0, hb0, hname0, hmem0⟩ := ha rid0 r0 bid0 hv hbnd0
              by_cases hbb : bid0 = bid
              · subst hbb
                have hb0b : b = b0 := by
                  rw [hbf] at hb0
                  exact Option.some.inj hb0
                subst hb0b
                refine ⟨{ b with referenceList := b.referenceList.erase rid },
                  assocFind_update_self_of hbf, hname0, ?_⟩
                dsimp only
                exact (List.mem_erase_of_ne hrr).mpr hmem0
              · exact ⟨b0, by rw [assocFind_update_ne hbb]; exact hb0,
                  hname0, hmem0⟩
          · intro bid0 b0 rid0 hb0 hmem0
            dsimp only at hb0 ⊢
            rcases assocFind_update_cases hb0 with ⟨hbb, v, hv, hv0⟩ | ⟨hbb, hv⟩
            · subst hbb
              have hvb : b = v := by
                rw [hbf] at hv
                exact Option.some.inj hv
              subst hvb
              subst hv0
              dsimp only at hmem0
              have hmem0' : rid0 ≠ rid ∧ rid0 ∈ b.referenceList :=
                (List.Nodup.mem_erase_iff hnd).mp hmem0
              obtain ⟨r1, hr1, hbnd1⟩ := hb bid0 b rid0 hbf hmem0'.2
              exact ⟨r1, by rw [assocFind_update_ne hmem0'.1]; exact hr1, hbnd1⟩
            · obtain ⟨r1, hr1, hbnd1⟩ := hb bid0 b0 rid0 hv hmem0
              have hne : rid0 ≠ rid := by
                intro hceq
                subst hceq
                rw [hr] at hr1
                have : r = r1 := Option.some.inj hr1
                rw [← this, hbnd] at hbnd1
                exact hbb (Option.some.inj hbnd1).symm
              exact ⟨r1, by rw [assocFind_update_ne hne]; exact hr1, hbnd1⟩
          · intro bid0 b0 hb0
            dsimp only at hb0
            rcases assocFind_update_cases hb0 with ⟨hbb, v, hv, hv0⟩ | ⟨hbb, hv⟩
            · subst hbb
              have hvb : b = v := by
                rw [hbf] at hv
                exact Option.some.inj hv
              subst hvb
              subst hv0
              exact List.Nodup.erase rid hnd
            · exact hc bid0 b0 hv

theorem assocFind_mapIf_of {α : Type} {P : Nat → Bool} {f : α → α}
    {l : List (Nat × α)} {k : Nat} {v : α} (h : assocFind k l = some v) :
    assocFind k (assocMapIf P f l) = some (if P k then f v else v) := by
  rw [assocFind_mapIf, h]
  rfl

theorem dirInv_renameBinder {s s' : DirState} {bid : Nat} {n : String}
    (hinv : DirInv s) (h : s.renameBinder bid n = some s') : DirInv s' := by
  obtain ⟨ha, hb, hc⟩ := hinv
  unfold DirState.renameBinder at h
  cases hbf : assocFind bid s.binders with
  | none => rw [hbf] at h; cases h
  | some b =>
    rw [hbf] at h
    dsimp only at h
    by_cases hsame : b.name = n
    · rw [if_pos hsame] at h
      injection h with h
      subst h
      exact ⟨ha, hb, hc⟩
    · rw [if_neg hsame] at h
      injection h with h
      subst h
      refine ⟨?_, ?_, ?_⟩
      · intro rid0 r0 bid0 hr0 hbnd0
        dsimp only at hr0 ⊢
        obtain ⟨r1, hr1, hr0eq⟩ := assocFind_mapIf_cases hr0
        by_cases hp : rid0 ∈ b.referenceList
        · rw [if_pos (by simpa using hp)] at hr0eq
          subst hr0eq
          dsimp only at hbnd0
          obtain ⟨r2, hr2, hbnd2⟩ := hb bid b rid0 hbf hp
          have hr12 : r1 = r2 := by
            rw [hr1] at hr2
            exact Option.some.inj hr2
          subst hr12
          have hbb : bid0 = bid := by
            rw [hbnd0] at hbnd2
            exact Option.some.inj hbnd2
          subst hbb
          exact ⟨{ b with name := n }, assocFind_update_self_of hbf, rfl,
            by dsimp only; exact hp⟩
        · rw [if_neg (by simpa using hp)] at hr0eq
          subst hr0eq
          obtain ⟨b0, hb0, hname0, hmem0⟩ := ha rid0 r0 bid0 hr1 hbnd0
          have hbb : bid0 ≠ bid := by
            intro hceq
            subst hceq
            have hb0b : b = b0 := by
              rw [hbf] at hb0
              exact Option.some.inj hb0
            subst hb0b
            exact hp hmem0
          exact ⟨b0, by rw [assocFind_update_ne hbb]; exact hb0,
            hname0, hmem0⟩
      · intro bid0 b0 rid0 hb0 hmem0
        dsimp only at hb0 ⊢
        rcases assocFind_update_cases hb0 with ⟨hbb, v, hv, hv0⟩ | ⟨hbb, hv⟩
        · subst hbb
          have hvb : b = v := by
            rw [hbf] at hv
            exact Option.some.inj hv
          subst hvb
          subst hv0
          dsimp only at hmem0
          obtain ⟨r1, hr1, hbnd1⟩ := hb bid0 b rid0 hbf hmem0
          refine ⟨if b.referenceList.contains rid0 then
              { r1 with name := n } else r1,
            assocFind_mapIf_of hr1, ?_⟩
          by_cases hp : b.referenceList.contains rid0
          · rw [if_pos hp]
            exact hbnd1
          · rw [if_neg hp]
            exact hbnd1
        · obtain ⟨r1, hr1, hbnd1⟩ := hb bid0 b0 rid0 hv hmem0
          refine ⟨if b.referenceList.contains rid0 then
              { r1 with name := n } else r1,
            assocFind_mapIf_of hr1, ?_⟩
          by_cases hp : b.referenceList.contains rid0
          · rw [if_pos hp]
            exact hbnd1
          · rw [if_neg hp]
            exact hbnd1
      · intro bid0 b0 hb0
        dsimp only at hb0
        rcases assocFind_update_cases hb0 with ⟨hbb, v, hv, hv0⟩ | ⟨hbb, hv⟩
        · subst hbb
          have hvb : b = v := by
            rw [hbf] at hv
            exact Option.some.inj hv
          subst hvb
          subst hv0
          exact hc bid0 b hbf
        · exact hc bid0 b0 hv

theorem dirInv_renameReference {s s' : DirState} {rid : Nat} {n : String}
    (hinv : DirInv s) (h : s.renameReference rid n = some s') : DirInv s' := by
  obtain ⟨ha, hb, hc⟩ := hinv
  unfold DirState.renameReference at h
  cases hr : assocFind rid s.refs with
  | none => rw [hr] at h; cases h
  | some r =>
    rw [hr] at h
    dsimp only at h
    cases hbnd : r.boundTo with
    | some bid =>
      rw [hbnd] at h
      exact dirInv_renameBinder ⟨ha, hb, hc⟩ h
    | none =>
      rw [hbnd] at h
      injection h with h
      subst h
      refine ⟨?_, ?_, hc⟩
      · intro rid0 r0 bid0 hr0 hbnd0
        dsimp only at hr0 ⊢
        rcases assocFind_update_cases hr0 with ⟨hrr, v, hv, hv0⟩ | ⟨hrr, hv⟩
        · subst hrr
          have hvr : r = v := by
            rw [hr] at hv
            exact Option.some.inj hv
          subst hvr
          subst hv0
          dsimp only at hbnd0
          rw [hbnd] at hbnd0
          cases hbnd0
        · exact ha rid0 r0 bid0 hv hbnd0
      · intro bid0 b0 rid0 hb0 hmem0
        dsimp only at hb0 ⊢
        obtain ⟨r1, hr1, hbnd1⟩ := hb bid0 b0 rid0 hb0 hmem0
        have hne : rid0 ≠ rid := by
          intro hceq
          subst hceq
          rw [hr] at hr1
          have : r = r1 := Option.some.inj hr1
          rw [← this, hbnd] at hbnd1
          cases hbnd1
        exact ⟨r1, by rw [assocFind_update_ne hne]; exact hr1, hbnd1⟩

theorem dirInv_init : DirInv DirState.init := by
  refine ⟨?_, ?_, ?_⟩
  · intro rid r bid hr
    cases hr
  · intro bid b rid hb
    cases hb
  · intro bid b hb
    cases hb

theorem dirInv_step {s s' : DirState} (hinv : DirInv s)
    (h : DirStep s s') : DirInv s' := by
  cases h with
  | newBinder bid n s' hop => exact dirInv_newBinder hinv hop
  | newReference rid n s' hop => exact dirInv_newReference hinv hop
  | disposeBinder bid s' hop => exact dirInv_disposeBinder hinv hop
  | bindReference rid bid s' hop => exact dirInv_bindReference hinv hop
  | unbindReference rid s' hop => exact dirInv_unbindReference hinv hop
  | renameBinder bid n s' hop => exact dirInv_renameBinder hinv hop
  | renameReference rid n s' hop => exact dirInv_renameReference hinv hop

theorem dirReachable_inv {s : DirState} (h : DirReachable s) : DirInv s := by
  induction h with
  | refl => exact dirInv_init
  | tail _ hstep ih => exact dirInv_step ih hstep

/-- C5: name consistency. In every directory state reachable from a
fresh workspace by the public operations (binder/reference creation,
bind, unbind, binder or reference rename, deferred disposal --
structural connect/disconnect never touch this state), every reference
currently bound to a registered binder bears exactly that binder's
current name; only an unbound reference can carry a differing name. -/
theorem name_consistency_invariant (s : DirState) (h : DirReachable s)
    (rid bid : Nat) (r : DirReference) (b : DirBinder)
    (hr : assocFind rid s.refs = some r) (hbnd : r.boundTo = some bid)
    (hb : assocFind bid s.binders = some b) :
    r.name = b.name := by
  obtain ⟨b0, hb0, hname, _⟩ := (dirReachable_inv h).1 rid r bid hr hbnd
  rw [hb0] at hb
  rw [hname]
  rw [Option.some.inj hb]


theorem dirW3_reachable : DirReachable dirW3 := by
  refine Relation.ReflTransGen.tail (Relation.ReflTransGen.tail
    (Relation.ReflTransGen.tail Relation.ReflTransGen.refl
      (DirStep.newBinder _ 0 "x" ⟨[(0, ⟨"x", [], false⟩)], []⟩ rfl))
    (DirStep.newReference _ 1 "u"
      ⟨[(0, ⟨"x", [], false⟩)], [(1, ⟨"u", none⟩)]⟩ rfl))
    (DirStep.bindReference _ 1 0 dirW3 ?_)
  unfold DirState.bindReference
  norm_num [assocFind, assocUpdate, assocMapIf, dirW3]

/-- Witness for C5 at the concrete reachable state `dirW3`: reference
1 is bound to binder 0 and both are named `x`. -/
theorem name_consistency_invariant_witness :
    DirReference.name ⟨"x", some 0⟩ = DirBinder.name ⟨"x", [1], false⟩ :=
  name_consistency_invariant dirW3 dirW3_reachable 1 0 ⟨"x", some 0⟩
    ⟨"x", [1], false⟩ rfl rfl rfl

/-! ### Arena lemmas -/

theorem getElem?_some_lt {α : Type} {l : List α} {i : Nat} {a : α}
    (h : l[i]? = some a) : i < l.length := by
  by_contra hc
  rw [List.getElem?_eq_none (by omega)] at h
  cases h

theorem arenaWF_bound_lt {a : List Term} {i j : Nat}
    (hwf : arenaWF a = true) (h : a[i]? = some (Term.bound j)) :
    j < a.length := by
  have hmem : Term.bound j ∈ a := List.getElem?_mem h
  have := List.all_eq_true.mp hwf _ hmem
  simpa using this

theorem derefFuel_append (a xs : List Term) (hwf : arenaWF a = true) :
    ∀ fuel i, i < a.length →
      derefFuel (a ++ xs) fuel i = derefFuel a fuel i := by
  intro fuel
  induction fuel with
  | zero =>
    intro i _
    rfl
  | succ f ih =>
    intro i hi
    have hget : (a ++ xs)[i]? = a[i]? := by
      rw [List.getElem?_append, if_pos hi]
    simp only [derefFuel, hget]
    cases hcase : a[i]? with
    | none => rfl
    | some t =>
      cases t with
      | bound j => exact ih j (arenaWF_bound_lt hwf hcase)
      | unbound => rfl
      | int => rfl
      | float => rfl
      | bool => rfl
      | str => rfl
      | fn arg ret => rfl
      | list e => rfl
      | pair x y => rfl
      | record fs => rfl
      | unknown => rfl

theorem derefFuel_mono (a : List Term) :
    ∀ fuel fuel' i, fuel ≤ fuel' →
      notBoundAt a (derefFuel a fuel i) = true →
      derefFuel a fuel' i = derefFuel a fuel i := by
  intro fuel
  induction fuel with
  | zero =>
    intro fuel' i _ h
    cases fuel' with
    | zero => rfl
    | succ f' =>
      simp only [derefFuel] at h ⊢
      unfold notBoundAt at h
      cases hcase : a[i]? with
      | none => simp [hcase]
      | some t =>
        rw [hcase] at h
        cases t with
        | bound j => cases h
        | unbound => simp [hcase]
        | int => simp [hcase]
        | float => simp [hcase]
        | bool => simp [hcase]
        | str => simp [hcase]
        | fn arg ret => simp [hcase]
        | list e => simp [hcase]
        | pair x y => simp [hcase]
        | record fs => simp [hcase]
        | unknown => simp [hcase]
  | succ f ih =>
    intro fuel' i hle h
    cases fuel' with
    | zero => omega
    | succ f' =>
      simp only [derefFuel] at h ⊢
      cases hcase : a[i]? with
      | none => simp [hcase]
      | some t =>
        rw [hcase] at h
        cases t with
        | bound j =>
          simp only [hcase]
          exact ih f' j (by omega) h
        | unbound => simp [hcase]
        | int => simp [hcase]
        | float => simp [hcase]
        | bool => simp [hcase]
        | str => simp [hcase]
        | fn arg ret => simp [hcase]
        | list e => simp [hcase]
        | pair x y => simp [hcase]
        | record fs => simp [hcase]
        | unknown => simp [hcase]

theorem deref_append (a xs : List Term) (i : Nat)
    (hwf : arenaWF a = true) (hi : i < a.length)
    (hres : notBoundAt a (deref a i) = true) :
    deref (a ++ xs) i = deref a i := by
  unfold deref
  rw [derefFuel_append a xs hwf _ i hi]
  have hlen : a.length ≤ (a ++ xs).length := by
    simp
  exact derefFuel_mono a a.length (a ++ xs).length i hlen hres



/-- C6: unification aliasing. Whenever `connect` succeeds on two
connections -- whatever the shape of their terms, including nested
function, list, pair and record terms -- both connections' term slots
afterwards hold the same representative handle (pointer identity, not
mere structural equality), their dereferenced representatives
coincide, and the peer link is recorded both ways; the shared
representative is what every connection joined into the chain
afterwards sees. -/
theorem connect_aliases_representative (s : TypeState) (i j : Nat)
    (ci cj : Connection)
    (hi : s.conns[i]? = some ci) (hj : s.conns[j]? = some cj)
    (hij : i ≠ j)
    (hok : (connect s i j).2 = none) :
    ∃ ci' cj', (connect s i j).1.conns[i]? = some ci' ∧
      (connect s i j).1.conns[j]? = some cj' ∧
      ci'.term = cj'.term ∧
      deref (connect s i j).1.arena ci'.term =
        deref (connect s i j).1.arena cj'.term ∧
      ci'.peer = some j ∧ cj'.peer = some i := by
  unfold connect at hok ⊢
  rw [hi, hj] at hok ⊢
  dsimp only at hok ⊢
  cases hu : unifyFuel (s.arena.length + 1) s.arena ci.term cj.term with
  | error e =>
    rw [hu] at hok
    simp at hok
  | ok a' =>
    dsimp only
    refine ⟨{ ci with term := deref a' ci.term, peer := some j },
      { cj with term := deref a' ci.term, peer := some i },
      ?_, ?_, rfl, rfl, rfl, rfl⟩
    · rw [List.getElem?_set_ne (fun hc => hij hc.symm),
        List.getElem?_set_self (getElem?_some_lt hi)]
    · rw [List.getElem?_set_self]
      rw [List.length_set]
      exact getElem?_some_lt hj

/-- Witness for C6: connecting a variable slot to an `int` slot
succeeds and afterwards both connections hold the same term handle. -/
theorem connect_aliases_representative_witness :
    (connect c6s 0 1).2 = none ∧
    ((connect c6s 0 1).1.conns[0]?).map Connection.term =
      ((connect c6s 0 1).1.conns[1]?).map Connection.term := by
  have hok : (connect c6s 0 1).2 = none := by rfl
  obtain ⟨ci', cj', h1, h2, h3, _, _, _⟩ :=
    connect_aliases_representative c6s 0 1 ⟨0, none⟩ ⟨1, none⟩ rfl rfl
      (by decide) hok
  refine ⟨hok, ?_⟩
  rw [h1, h2]
  simp only [Option.map_some']
  rw [h3]

/-- C8: failed-connect atomicity. When the two connections' terms do
not unify, `connect` reports the type error and returns the state
exactly as it was: no peer link is recorded, both connections keep
their previous (unattached) state, and no sharing between their terms
is established. -/
theorem connect_failure_atomic (s : TypeState) (i j : Nat)
    (ci cj : Connection) (e : TypeError)
    (hi : s.conns[i]? = some ci) (hj : s.conns[j]? = some cj)
    (hfail : unifyFuel (s.arena.length + 1) s.arena ci.term cj.term =
      .error e) :
    connect s i j = (s, some e) := by
  unfold connect
  rw [hi, hj]
  dsimp only
  rw [hfail]

/-- Witness for C8: connecting an `int` slot to a `bool` slot fails
with `Inconsistent` and leaves the state untouched. -/
theorem connect_failure_atomic_witness :
    connect c8s 0 1 = (c8s, some TypeError.Inconsistent) :=
  connect_failure_atomic c8s 0 1 ⟨0, none⟩ ⟨1, none⟩
    TypeError.Inconsistent rfl rfl (by rfl)

theorem wfb_arena {s : TypeState} (h : s.wfb = true) :
    arenaWF s.arena = true := by
  unfold TypeState.wfb at h
  rw [Bool.and_eq_true, Bool.and_eq_true] at h
  exact h.1.1

theorem wfb_conn_term {s : TypeState} {k : Nat} {c : Connection}
    (h : s.wfb = true) (hc : s.conns[k]? = some c) :
    c.term < s.arena.length := by
  unfold TypeState.wfb at h
  rw [Bool.and_eq_true, Bool.and_eq_true] at h
  have := List.all_eq_true.mp h.1.2 _ (List.getElem?_mem hc)
  simpa using this

theorem wfb_ref_term {s : TypeState} {m : Nat} {r : VarRef}
    (h : s.wfb = true) (hr : s.refs[m]? = some r) :
    r.typeExpr < s.arena.length := by
  unfold TypeState.wfb at h
  rw [Bool.and_eq_true, Bool.and_eq_true] at h
  have := List.all_eq_true.mp h.2 _ (List.getElem?_mem hr)
  simpa using this

/-- Computing `disconnect` when, for each of the two sides, the third
connection `k` is still attached and shares the representative: both
resets take the representative-preserving branch, so the arena is only
extended by two fresh unbound slots and only the two disconnecting
connections' records change. -/
theorem disconnect_shared_eq (s : TypeState) (i j k : Nat)
    (ci cj ck : Connection) (rep : Nat)
    (hwfA : arenaWF s.arena = true)
    (htermj : cj.term < s.arena.length)
    (htermk : ck.term < s.arena.length)
    (hi : s.conns[i]? = some ci) (hj : s.conns[j]? = some cj)
    (hk : s.conns[k]? = some ck)
    (hpi : ci.peer = some j) (hpj : cj.peer = some i)
    (hpk : ck.peer.isSome = true)
    (hij : i ≠ j) (hki : k ≠ i) (hkj : k ≠ j)
    (hri : deref s.arena ci.term = rep)
    (hrj : deref s.arena cj.term = rep)
    (hrk : deref s.arena ck.term = rep)
    (hnb : notBoundAt s.arena rep = true) :
    disconnect s i j =
      ⟨(s.arena ++ [Term.unbound]) ++ [Term.unbound],
        ((((s.conns.set i { ci with peer := none }).set j
            { cj with peer := none }).set i
            ⟨s.arena.length, none⟩).set j
            ⟨(s.arena ++ [Term.unbound]).length, none⟩),
        s.refs⟩ := by
  have hl_i : i < s.conns.length := getElem?_some_lt hi
  have hl_j : j < s.conns.length := getElem?_some_lt hj
  have hl_k : k < s.conns.length := getElem?_some_lt hk
  have hc0i : ((s.conns.set i { ci with peer := none }).set j
      { cj with peer := none })[i]? = some { ci with peer := none } := by
    rw [List.getElem?_set_ne (fun hc => hij hc.symm),
      List.getElem?_set_self hl_i]
  have hc0j : ((s.conns.set i { ci with peer := none }).set j
      { cj with peer := none })[j]? = some { cj with peer := none } := by
    rw [List.getElem?_set_self]
    rw [List.length_set]
    exact hl_j
  have hc0k : ((s.conns.set i { ci with peer := none }).set j
      { cj with peer := none })[k]? = some ck := by
    rw [List.getElem?_set_ne (fun hc => hkj hc.symm),
      List.getElem?_set_ne (fun hc => hki hc.symm)]
    exact hk
  have hshare1 : sharesRep s.arena
      ((s.conns.set i { ci with peer := none }).set j
        { cj with peer := none }) i rep = true := by
    unfold sharesRep
    rw [List.any_eq_true]
    refine ⟨k, List.mem_range.mpr ?_, ?_⟩
    · rw [List.length_set, List.length_set]
      exact hl_k
    · simp only [hc0k, Bool.and_eq_true, decide_eq_true_eq]
      exact ⟨hki, hpk, by rw [hrk]⟩
  have hdisc : disconnect s i j =
      reset (reset { s with conns :=
        ((s.conns.set i { ci with peer := none }).set j
          { cj with peer := none }) } i) j := by
    unfold disconnect
    rw [hi, hj]
    dsimp only
    rw [if_pos ⟨hpi, hpj⟩]
  have hreset1 : reset { s with conns :=
      ((s.conns.set i { ci with peer := none }).set j
        { cj with peer := none }) } i =
      ⟨s.arena ++ [Term.unbound],
        ((s.conns.set i { ci with peer := none }).set j
          { cj with peer := none }).set i ⟨s.arena.length, none⟩,
        s.refs⟩ := by
    unfold reset
    dsimp only
    rw [hc0i]
    dsimp only
    rw [hri, if_pos hshare1]
  have hc1j : (((s.conns.set i { ci with peer := none }).set j
      { cj with peer := none }).set i ⟨s.arena.length, none⟩)[j]? =
      some { cj with peer := none } := by
    rw [List.getElem?_set_ne hij]
    exact hc0j
  have hc1k : (((s.conns.set i { ci with peer := none }).set j
      { cj with peer := none }).set i ⟨s.arena.length, none⟩)[k]? =
      some ck := by
    rw [List.getElem?_set_ne (fun hc => hki hc.symm)]
    exact hc0k
  have hderefj : deref (s.arena ++ [Term.unbound]) cj.term = rep := by
    rw [deref_append s.arena [Term.unbound] cj.term hwfA htermj
      (by rw [hrj]; exact hnb)]
    exact hrj
  have hderefk : deref (s.arena ++ [Term.unbound]) ck.term = rep := by
    rw [deref_append s.arena [Term.unbound] ck.term hwfA htermk
      (by rw [hrk]; exact hnb)]
    exact hrk
  have hshare2 : sharesRep (s.arena ++ [Term.unbound])
      (((s.conns.set i { ci with peer := none }).set j
        { cj with peer := none }).set i ⟨s.arena.length, none⟩) j rep
      = true := by
    unfold sharesRep
    rw [List.any_eq_true]
    refine ⟨k, List.mem_range.mpr ?_, ?_⟩
    · rw [List.length_set, List.length_set, List.length_set]
      exact hl_k
    · simp only [hc1k, Bool.and_eq_true, decide_eq_true_eq]
      exact ⟨hkj, hpk, by rw [hderefk]⟩
  have hreset2 : reset
      ⟨s.arena ++ [Term.unbound],
        ((s.conns.set i { ci with peer := none }).set j
          { cj with peer := none }).set i ⟨s.arena.length, none⟩,
        s.refs⟩ j =
      ⟨(s.arena ++ [Term.unbound]) ++ [Term.unbound],
        ((((s.conns.set i { ci with peer := none }).set j
            { cj with peer := none }).set i
            ⟨s.arena.length, none⟩).set j
            ⟨(s.arena ++ [Term.unbound]).length, none⟩),
        s.refs⟩ := by
    unfold reset
    dsimp only
    rw [hc1j]
    dsimp only
    rw [hderefj, if_pos hshare2]
  rw [hdisc, hreset1, hreset2]


/-- C7: disconnect locality. When a representative is shared by the
disconnecting connection `i` (paired with `j`) and by two further
attached connections `k` and `k2`, disconnecting `i` from `j` leaves
the representative's slot untouched (still holding its concrete
term), leaves the two survivors' records and their dereferenced
representative unchanged, and gives the disconnected slot a freshly
allocated unbound term at a handle that did not exist before (hence
independent of the survivors' representative). -/
theorem disconnect_locality (s : TypeState) (i j k k2 : Nat)
    (ci cj ck ck2 : Connection) (rep : Nat) (t : Term)
    (hwf : s.wfb = true)
    (hi : s.conns[i]? = some ci) (hj : s.conns[j]? = some cj)
    (hk : s.conns[k]? = some ck) (hk2 : s.conns[k2]? = some ck2)
    (hpi : ci.peer = some j) (hpj : cj.peer = some i)
    (hpk : ck.peer.isSome = true) (hpk2 : ck2.peer.isSome = true)
    (hij : i ≠ j) (hki : k ≠ i) (hkj : k ≠ j)
    (hk2i : k2 ≠ i) (hk2j : k2 ≠ j)
    (hri : deref s.arena ci.term = rep)
    (hrj : deref s.arena cj.term = rep)
    (hrk : deref s.arena ck.term = rep)
    (hrk2 : deref s.arena ck2.term = rep)
    (hconc : s.arena[rep]? = some t) (ht : t.isConcrete = true) :
    (disconnect s i j).arena[rep]? = some t ∧
    (disconnect s i j).conns[k]? = some ck ∧
    (disconnect s i j).conns[k2]? = some ck2 ∧
    deref (disconnect s i j).arena ck.term = rep ∧
    deref (disconnect s i j).arena ck2.term = rep ∧
    (disconnect s i j).conns[i]? = some ⟨s.arena.length, none⟩ ∧
    (disconnect s i j).arena[s.arena.length]? = some Term.unbound ∧
    rep < s.arena.length := by
  have hnb : notBoundAt s.arena rep = true := by
    unfold notBoundAt
    rw [hconc]
    cases t with
    | bound u => simp [Term.isConcrete] at ht
    | unbound => simp [Term.isConcrete] at ht
    | int => rfl
    | float => rfl
    | bool => rfl
    | str => rfl
    | fn a r => rfl
    | list e => rfl
    | pair a b => rfl
    | record fs => rfl
    | unknown => rfl
  have heq := disconnect_shared_eq s i j k ci cj ck rep (wfb_arena hwf)
    (wfb_conn_term hwf hj) (wfb_conn_term hwf hk) hi hj hk hpi hpj hpk
    hij hki hkj hri hrj hrk hnb
  have hrep_lt : rep < s.arena.length := getElem?_some_lt hconc
  have harr : (s.arena ++ [Term.unbound]) ++ [Term.unbound] =
      s.arena ++ [Term.unbound, Term.unbound] := by
    rw [List.append_assoc]
    rfl
  rw [heq]
  dsimp only
  rw [harr]
  refine ⟨?_, ?_, ?_, ?_, ?_, ?_, ?_, hrep_lt⟩
  · rw [List.getElem?_append, if_pos hrep_lt]
    exact hconc
  · rw [List.getElem?_set_ne (fun hc => hkj hc.symm),
      List.getElem?_set_ne (fun hc => hki hc.symm),
      List.getElem?_set_ne (fun hc => hkj hc.symm),
      List.getElem?_set_ne (fun hc => hki hc.symm)]
    exact hk
  · rw [List.getElem?_set_ne (fun hc => hk2j hc.symm),
      List.getElem?_set_ne (fun hc => hk2i hc.symm),
      List.getElem?_set_ne (fun hc => hk2j hc.symm),
      List.getElem?_set_ne (fun hc => hk2i hc.symm)]
    exact hk2
  · rw [deref_append s.arena [Term.unbound, Term.unbound] ck.term
      (wfb_arena hwf) (wfb_conn_term hwf hk) (by rw [hrk]; exact hnb)]
    exact hrk
  · rw [deref_append s.arena [Term.unbound, Term.unbound] ck2.term
      (wfb_arena hwf) (wfb_conn_term hwf hk2) (by rw [hrk2]; exact hnb)]
    exact hrk2
  · rw [List.getElem?_set_ne (fun hc => hij hc.symm),
      List.getElem?_set_self]
    rw [List.length_set, List.length_set]
    exact getElem?_some_lt hi
  · rw [List.getElem?_append, if_neg (by omega)]
    have : s.arena.length - s.arena.length = 0 := by omega
    rw [this]
    rfl

/-- Witness for C7 at `c7s`: disconnecting the pair 0-1 leaves the
`int` representative and the surviving pair 2-3 untouched, and slot 0
becomes a fresh unbound variable at the new handle 1. -/
theorem disconnect_locality_witness :
    (disconnect c7s 0 1).arena[0]? = some Term.int ∧
    (disconnect c7s 0 1).conns[2]? = some ⟨0, some 3⟩ ∧
    (disconnect c7s 0 1).conns[3]? = some ⟨0, some 2⟩ ∧
    deref (disconnect c7s 0 1).arena 0 = 0 ∧
    deref (disconnect c7s 0 1).arena 0 = 0 ∧
    (disconnect c7s 0 1).conns[0]? = some ⟨1, none⟩ ∧
    (disconnect c7s 0 1).arena[1]? = some Term.unbound ∧
    0 < 1 :=
  disconnect_locality c7s 0 1 2 3 ⟨0, some 1⟩ ⟨0, some 0⟩ ⟨0, some 3⟩
    ⟨0, some 2⟩ 0 Term.int (by decide) rfl rfl rfl rfl rfl rfl rfl rfl
    (by decide) (by decide) (by decide) (by decide) (by decide)
    rfl rfl rfl rfl rfl rfl


/-- C10: disconnecting a structural connection never unbinds a
reference. The references (including each one's bound-binder link) are
exactly the same after `disconnect`, and -- when, as in the source's
test, the concrete type's source connection survives on each side --
the reference's dereferenced type still reaches the same concrete
term. Only explicit unbind or disposal severs the binding relation. -/
theorem disconnect_preserves_reference_binding (s : TypeState)
    (i j k m : Nat) (ci cj ck : Connection) (vr : VarRef)
    (rep rr : Nat) (t tr : Term)
    (hwf : s.wfb = true)
    (hi : s.conns[i]? = some ci) (hj : s.conns[j]? = some cj)
    (hk : s.conns[k]? = some ck) (hm : s.refs[m]? = some vr)
    (hpi : ci.peer = some j) (hpj : cj.peer = some i)
    (hpk : ck.peer.isSome = true)
    (hij : i ≠ j) (hki : k ≠ i) (hkj : k ≠ j)
    (hri : deref s.arena ci.term = rep)
    (hrj : deref s.arena cj.term = rep)
    (hrk : deref s.arena ck.term = rep)
    (hconc : s.arena[rep]? = some t) (ht : t.isConcrete = true)
    (hrefr : deref s.arena vr.typeExpr = rr)
    (hconcr : s.arena[rr]? = some tr) (htr : tr.isConcrete = true) :
    (disconnect s i j).refs = s.refs ∧
    (disconnect s i j).refs[m]? = some vr ∧
    deref (disconnect s i j).arena vr.typeExpr = rr ∧
    (disconnect s i j).arena[rr]? = some tr := by
  have hnb : notBoundAt s.arena rep = true := by
    unfold notBoundAt
    rw [hconc]
    cases t with
    | bound u => simp [Term.isConcrete] at ht
    | unbound => simp [Term.isConcrete] at ht
    | int => rfl
    | float => rfl
    | bool => rfl
    | str => rfl
    | fn a r => rfl
    | list e => rfl
    | pair a b => rfl
    | record fs => rfl
    | unknown => rfl
  have hnbr : notBoundAt s.arena rr = true := by
    unfold notBoundAt
    rw [hconcr]
    cases tr with
    | bound u => simp [Term.isConcrete] at htr
    | unbound => simp [Term.isConcrete] at htr
    | int => rfl
    | float => rfl
    | bool => rfl
    | str => rfl
    | fn a r => rfl
    | list e => rfl
    | pair a b => rfl
    | record fs => rfl
    | unknown => rfl
  have heq := disconnect_shared_eq s i j k ci cj ck rep (wfb_arena hwf)
    (wfb_conn_term hwf hj) (wfb_conn_term hwf hk) hi hj hk hpi hpj hpk
    hij hki hkj hri hrj hrk hnb
  have hrr_lt : rr < s.arena.length := getElem?_some_lt hconcr
  have harr : (s.arena ++ [Term.unbound]) ++ [Term.unbound] =
      s.arena ++ [Term.unbound, Term.unbound] := by
    rw [List.append_assoc]
    rfl
  rw [heq]
  dsimp only
  rw [harr]
  refine ⟨rfl, hm, ?_, ?_⟩
  · rw [deref_append s.arena [Term.unbound, Term.unbound] vr.typeExpr
      (wfb_arena hwf) (wfb_ref_term hwf hm) (by rw [hrefr]; exact hnbr)]
    exact hrefr
  · rw [List.getElem?_append, if_pos hrr_lt]
    exact hconcr

/-- Witness for C10 at `c10s`: after disconnecting the pair 0-1, the
reference still reports binder 42 and its term still dereferences to
the concrete `bool`. -/
theorem disconnect_preserves_reference_binding_witness :
    (disconnect c10s 0 1).refs = c10s.refs ∧
    (disconnect c10s 0 1).refs[0]? = some ⟨0, some 42⟩ ∧
    deref (disconnect c10s 0 1).arena 0 = 0 ∧
    (disconnect c10s 0 1).arena[0]? = some Term.bool :=
  disconnect_preserves_reference_binding c10s 0 1 2 0 ⟨0, some 1⟩
    ⟨0, some 0⟩ ⟨0, some 3⟩ ⟨0, some 42⟩ 0 0 Term.bool Term.bool
    (by decide) rfl rfl rfl rfl rfl rfl rfl (by decide) (by decide)
    (by decide) rfl rfl rfl rfl rfl rfl rfl rfl

theorem resolve_not_in (boundTo : Nat) (n : String) :
    ∀ anchor : List ScopeFrame, (∀ f ∈ anchor, f.bid ≠ boundTo) →
      resolveReference boundTo n anchor = false := by
  intro anchor
  induction anchor with
  | nil =>
    intro _
    rfl
  | cons f rest ih =>
    intro h
    unfold resolveReference
    rw [List.find?_cons]
    by_cases hname : (f.name == n) = true
    · simp only [hname]
      simpa using h f (by simp)
    · have hname' : (f.name == n) = false := by
        simpa using hname
      simp only [hname']
      have := ih fun g hg => h g (by simp [hg])
      unfold resolveReference at this
      exact this

/-- C9: scope legality under shadowing and isolated sub-contexts.
With an outer binder and a nested shadowing binder of the same name,
a reference bound to the nested binder is legal at an anchor inside
the nested scope's body (whose innermost frame is the nested binder),
while a reference bound to the outer binder is refused there; and a
reference bound to the nested binder is refused at every anchor whose
visible frames do not include that binder (positions in enclosing
contexts) as well as at anchors where another same-named binder
shadows it (positions in more deeply nested sub-contexts). -/
theorem scope_resolution_shadowing (inner outer : Nat) (n : String)
    (rest : List ScopeFrame) (hio : inner ≠ outer) :
    resolveReference inner n (⟨inner, n⟩ :: ⟨outer, n⟩ :: rest) = true ∧
    resolveReference outer n (⟨inner, n⟩ :: ⟨outer, n⟩ :: rest) = false ∧
    (∀ anchor : List ScopeFrame, (∀ f ∈ anchor, f.bid ≠ inner) →
      resolveReference inner n anchor = false) ∧
    (∀ other : Nat, ∀ rest2 : List ScopeFrame, other ≠ inner →
      resolveReference inner n (⟨other, n⟩ :: rest2) = false) := by
  refine ⟨?_, ?_, ?_, ?_⟩
  · simp [resolveReference, List.find?_cons]
  · simp [resolveReference, List.find?_cons]
    exact hio
  · exact resolve_not_in inner n
  · intro other rest2 hoi
    simp [resolveReference, List.find?_cons]
    exact hoi

/-- Witness for C9 with outer binder 0 and nested shadowing binder 1,
both named `i`: inside the nested body `[⟨1,i⟩, ⟨0,i⟩]` the reference
bound to 1 is legal and the one bound to 0 is refused; at the
enclosing anchor `[⟨0,i⟩]` and under a deeper shadow `[⟨2,i⟩]` the
reference bound to 1 is refused. -/
theorem scope_resolution_shadowing_witness :
    resolveReference 1 "i" [⟨1, "i"⟩, ⟨0, "i"⟩] = true ∧
    resolveReference 0 "i" [⟨1, "i"⟩, ⟨0, "i"⟩] = false ∧
    resolveReference 1 "i" [⟨0, "i"⟩] = false ∧
    resolveReference 1 "i" [⟨2, "i"⟩] = false :=
  have h := scope_resolution_shadowing 1 0 "i" [] (by decide)
  ⟨h.1, h.2.1, h.2.2.1 [⟨0, "i"⟩] (by decide), h.2.2.2 2 [] (by decide)⟩

end OcamlBlockly
